import Mathlib

/-!
Verification of the lv-state-estimator voltage-estimation core.

The development shallowly embeds the functions of
`ddse/algorithm/beta_computation.py`, the measurement aligner of
`ddse/database/state_estimation_db_helper.py` and the partition logic of the
`/voltages` endpoint of `ddse/routers/state_estimation.py`.

Conventions of the embedding:
- voltages are rationals; a matrix cell holds `Option ℚ`, where `none` stands
  for an unavailable value (Python `None` coming from the database layer, or a
  NumPy `NaN` inside `beta_pred`);
- matrices are total functions `ℕ → ℕ → Option ℚ` together with explicitly
  tracked dimensions; entries outside the tracked ranges are irrelevant junk;
- Python code that can raise is embedded as an `Option`-returning function,
  `none` meaning the call raises;
- timestamps handed to `check_intervals` are abstracted to their instant in
  minutes (the Python code parses ISO 8601 strings with `dateutil` and takes
  `total_seconds() / 60` of differences, which is outside the core);
- `np.linalg.lstsq(A, b, rcond=None)` is an external library call; it is
  modelled by its documented semantics (the minimum-norm least-squares
  solution) through the predicate `IsMinNormLS`, and theorems about the
  fitter take the solver as a parameter assumed to satisfy that predicate on
  the instances it is applied to.
-/

namespace DDSE

/-- A dense matrix cell: `some v` is an available voltage, `none` is the
unavailable marker (`None` / `NaN`). -/
abbrev Cell := Option ℚ

/-- A dense matrix as a total function; dimensions are tracked separately. -/
abbrev Mat := ℕ → ℕ → Cell

/-! ### Interval validator (`beta_computation.py`, lines 7–25) -/

/-- Embedding of `check_intervals`.  The Python loop body ends in an
unconditional `return delta_minutes`, so the function returns the delta of the
first consecutive pair and never inspects later pairs; with fewer than two
timestamps the loop never runs and Python implicitly returns `None`. -/
def check_intervals (times : List ℚ) : Option ℚ :=
  match times with
  | t1 :: t2 :: _ => some (t2 - t1)
  | _ => none

/-- Truncation toward zero of a rational, the semantics of Python `int()`. -/
def intTrunc (q : ℚ) : ℤ :=
  if 0 ≤ q then ⌊q⌋ else ⌈q⌉

/-- Embedding of `number_daily_meas`: `int(24 * 60 / delta)`.  Division by
zero raises (`none`); any other delta, including negative ones, is accepted. -/
def number_daily_meas (delta : ℚ) : Option ℤ :=
  if delta = 0 then none else some (intTrunc (24 * 60 / delta))

/-! ### Lag-feature construction (`beta_computation.py`, lines 58–74)

`beta_pred` extends the unknown-meter matrix on the left by `daily_meas * 7`
columns (line 62), but fills the NaN pad and places the data using the fixed
constant `48 * 7 = 336` (lines 63–64).  The data placement
`v_extended[:, 48 * 7 :] = volt_uknown` is a NumPy broadcasting assignment: it
succeeds iff the width `T` of `volt_uknown` equals the width of the target
slice, or `T = 1` (in which case the single column is broadcast across the
whole slice). -/

/-- Width of the extended array: `T + daily_meas * 7` (line 62). -/
def extWidth (T dm : ℕ) : ℕ := T + dm * 7

/-- Width of the slice `v_extended[:, 48*7 :]` that receives the data
(line 64); NumPy slicing clips, hence the truncated subtraction. -/
def dataWidth (T dm : ℕ) : ℕ := extWidth T dm - 336

/-- The broadcasting assignment of line 64 succeeds iff the source width
matches the target slice width or the source has a single column. -/
def broadcastOk (T dm : ℕ) : Bool := (dataWidth T dm == T) || (T == 1)

/-- Embedding of `v_extended` after lines 62–64: columns `< 336` hold NaN,
columns `≥ 336` hold the (possibly broadcast) data. -/
def v_extended (vu : Mat) (T : ℕ) : Mat := fun i j =>
  if j < 336 then none
  else if T = 1 then vu i 0 else vu i (j - 336)

/-- Index arithmetic of `np.roll(·, s, axis=1)` on width `W`:
entry `j` of the result is entry `(j - s) mod W` of the input. -/
def rollIdx (W s j : ℕ) : ℕ :=
  if W = 0 then j else (j + (W - s % W)) % W

/-- The shift, in columns, of lag channel `c`: `daily_meas`,
`daily_meas * 2`, `daily_meas * 7` for channels 0, 1, 2 (lines 67–69). -/
def lagShift (c dm : ℕ) : ℕ := dm * (if c = 0 then 1 else if c = 1 then 2 else 7)

/-- Lag channel `c` as built by lines 67–69: roll the extended array by the
channel's shift, then truncate the first `daily_meas * 7` columns. -/
def lagChannel (vu : Mat) (T dm c : ℕ) : Mat := fun i t =>
  v_extended vu T i (rollIdx (extWidth T dm) (lagShift c dm) (dm * 7 + t))

/-- The day offset of lag channel `c`: 1, 2 or 7 days. -/
def dayOffset (c : ℕ) : ℕ := if c = 0 then 1 else if c = 1 then 2 else 7

/-- Modelled from the spec (§4.3): the genuine windowed shift by
`daily_count · d` columns, marking history before the start of the window as
unavailable.  Stated independently of the roll-and-truncate construction for
the refinement claim. -/
def laggedShiftSpec (vu : Mat) (dm d : ℕ) : Mat := fun i t =>
  if t < dm * d then none else vu i (t - dm * d)

/-- Entry `(j, i, t)` of the full regressor tensor `v_data_regr`
(lines 72–74): lag channels at `j < 3`, the tiled known-meter matrix at
`j ≥ 3` (the same known row for every unknown meter `i`). -/
def regrEntry (vk vu : Mat) (T dm j i t : ℕ) : Cell :=
  if j < 3 then lagChannel vu T dm j i t else vk (j - 3) t

/-! ### Regression fitter (`beta_computation.py`, lines 76–94) -/

/-- Row `t`, column `j` of the transposed, warm-up-truncated design matrix
`v_data_reg_meter_i_noNans.T` for unknown meter `i` (lines 85, 89).  The
training region provably contains no NaN, so `getD 0` is never exercised on an
unavailable cell there. -/
def trainDesign (vk vu : Mat) (T dm i : ℕ) : ℕ → ℕ → ℚ := fun t j =>
  (regrEntry vk vu T dm j i (dm * 7 + t)).getD 0

/-- Entry `t` of the warm-up-truncated target `output_v_data_noNans` for
unknown meter `i` (line 86). -/
def trainTarget (vu : Mat) (dm i : ℕ) : ℕ → ℚ := fun t =>
  (vu i (dm * 7 + t)).getD 0

/-- Decidable check that every tracked entry of a matrix is available; the
NumPy assignments of lines 64 and 74 raise a `TypeError` whenever a `None`
from the database layer reaches them. -/
def allSome (A : Mat) (m n : ℕ) : Bool :=
  (List.range m).all fun i => (List.range n).all fun j => (A i j).isSome

/-- The type of a least-squares solver: row count, column count, design
matrix, target vector, coefficient index ↦ coefficient. -/
abbrev Solver := ℕ → ℕ → (ℕ → ℕ → ℚ) → (ℕ → ℚ) → ℕ → ℚ

/-- Embedding of `beta_pred`, parameterized over the least-squares solver
standing for `np.linalg.lstsq(·, ·, rcond=None)`.  The run fails (`none`)
when an unavailable input cell reaches a float array assignment or when the
line-64 broadcast is inconsistent; otherwise column `i` of the result is the
solver's answer on meter `i`'s truncated design matrix and target. -/
def beta_pred (ls : Solver) (vk vu : Mat) (U K T dm : ℕ) : Option (ℕ → ℕ → ℚ) :=
  if allSome vu U T && allSome vk K T && broadcastOk T dm then
    some fun r i => ls (T - dm * 7) (3 + K) (trainDesign vk vu T dm i) (trainTarget vu dm i) r
  else none

/-! ### Predictor (`beta_computation.py`, lines 97–130) -/

/-- The feature vector `indep` of lines 123–125 for excluded meter `i`:
three lag values followed by the current known-meter voltages. -/
def indepVec (exc : Mat) (act : ℕ → ℚ) (i : ℕ) : ℕ → ℚ := fun j =>
  if j < 3 then (exc j i).getD 0 else act (j - 3)

/-- Embedding of `v_pred`, returning the length-`U` array of predictions.
The assignment `indep[:3] = exc_voltages[:, i]` raises a `TypeError` as soon
as some meter's lag column contains `None`, which aborts the whole call
(`none`); otherwise every prediction is the dot product of the feature vector
with the meter's coefficient column (line 128). -/
def v_pred (exc : Mat) (act : ℕ → ℚ) (beta : ℕ → ℕ → ℚ) (U K : ℕ) : Option (List ℚ) :=
  if allSome exc 3 U then
    some ((List.range U).map fun i => ∑ j ∈ Finset.range (3 + K), indepVec exc act i j * beta j i)
  else none

/-! ### Least-squares semantics

`np.linalg.lstsq(A, b, rcond=None)` is documented to return the minimum-norm
least-squares solution; `IsMinNormLS` states exactly that property over the
tracked index ranges. -/

/-- Squared residual `‖A x - b‖²` over `m` rows and `p` columns. -/
def residSq (m p : ℕ) (A : ℕ → ℕ → ℚ) (b : ℕ → ℚ) (x : ℕ → ℚ) : ℚ :=
  ∑ t ∈ Finset.range m, ((∑ j ∈ Finset.range p, A t j * x j) - b t) ^ 2

/-- Squared Euclidean norm over the first `p` coordinates. -/
def normSq (p : ℕ) (x : ℕ → ℚ) : ℚ :=
  ∑ j ∈ Finset.range p, x j ^ 2

/-- Statement that `x` is the minimum-norm least-squares solution of
`A x = b`: it minimizes
the squared residual and, among residual minimizers, has minimal norm. -/
def IsMinNormLS (m p : ℕ) (A : ℕ → ℕ → ℚ) (b : ℕ → ℚ) (x : ℕ → ℚ) : Prop :=
  (∀ y, residSq m p A b x ≤ residSq m p A b y) ∧
  (∀ y, residSq m p A b y ≤ residSq m p A b x → normSq p x ≤ normSq p y)

/-! ### Measurement aligner (`state_estimation_db_helper.py`, lines 48–96)

Meter ids and timestamps are Python strings compared lexicographically; the
embedding abstracts them as elements of arbitrary types with decidable
equality and (where sorting occurs) a linear order.  Python sets are embedded
as lists up to duplication and order: `sorted(s)` becomes deduplication
followed by `List.insertionSort (· ≤ ·)`. -/

/-- One row of the `measurements` table as consumed by the aligner, over
meter-id type `α` and timestamp type `β`. -/
structure MeasurementRow (α β : Type) where
  meter : α
  ts : β
  v : ℚ
deriving DecidableEq, Repr

/-- One iteration of the loop of `organize_measurements_by_meter`
(lines 64–71): record the row's value under its (meter, timestamp) key,
overwriting any earlier value there, exactly as the dict assignment does. -/
def dictInsert {α β : Type} [DecidableEq α] [DecidableEq β]
    (f : α → β → Option ℚ) (r : MeasurementRow α β) : α → β → Option ℚ :=
  fun m t => if m = r.meter ∧ t = r.ts then some r.v else f m t

/-- The dictionary-of-dictionaries built by the loop of
`organize_measurements_by_meter` (lines 61–71), as a lookup function. -/
def meterDataOf {α β : Type} [DecidableEq α] [DecidableEq β]
    (rows : List (MeasurementRow α β)) : α → β → Option ℚ :=
  rows.foldl dictInsert fun _ _ => none

/-- The `sorted(timestamps_set)` of line 73: the sorted list of the distinct
timestamps seen across the rows. -/
def sortedTimestampsOf {α β : Type} [DecidableEq β] [LinearOrder β]
    (rows : List (MeasurementRow α β)) : List β :=
  ((rows.map MeasurementRow.ts).dedup).insertionSort (· ≤ ·)

/-- Embedding of `organize_measurements_by_meter` (lines 48–74). -/
def organize_measurements_by_meter {α β : Type} [DecidableEq α] [DecidableEq β]
    [LinearOrder β] (rows : List (MeasurementRow α β)) :
    (α → β → Option ℚ) × List β :=
  (meterDataOf rows, sortedTimestampsOf rows)

/-- Embedding of `build_voltage_matrix` (lines 77–96):
`meter_data.get(meter, {}).get(ts, None)` for each requested meter row and
each timestamp column. -/
def build_voltage_matrix {α β : Type} (meter_ids : List α)
    (meter_data : α → β → Option ℚ) (timestamps : List β) :
    List (List (Option ℚ)) :=
  meter_ids.map fun m => timestamps.map fun t => meter_data m t

/-! ### Endpoint partition (`routers/state_estimation.py`, lines 53–100) -/

/-- The trivial solver used to instantiate solver-parameterized statements on
degenerate (zero-row) training windows. -/
def zeroSolver : Solver := fun _ _ _ _ _ => 0

theorem allSome_iff (A : Mat) (m n : ℕ) :
    allSome A m n = true ↔ ∀ i < m, ∀ j < n, (A i j).isSome := by
  simp [allSome, List.all_eq_true, List.mem_range]

theorem normSq_nonneg (p : ℕ) (x : ℕ → ℚ) : 0 ≤ normSq p x :=
  Finset.sum_nonneg fun _ _ => sq_nonneg _

theorem normSq_zero_fun (p : ℕ) : normSq p (fun _ => 0) = 0 := by
  simp [normSq]

theorem residSq_zero_rows (p : ℕ) (A : ℕ → ℕ → ℚ) (b x : ℕ → ℚ) :
    residSq 0 p A b x = 0 := by
  simp [residSq]

theorem isMinNormLS_zero_rows (p : ℕ) (A : ℕ → ℕ → ℚ) (b : ℕ → ℚ) :
    IsMinNormLS 0 p A b fun _ => 0 := by
  constructor
  · intro y
    rw [residSq_zero_rows, residSq_zero_rows]
  · intro y _
    rw [normSq_zero_fun]
    exact normSq_nonneg p y

theorem residSq_congr_left (m p : ℕ) (A A' : ℕ → ℕ → ℚ) (b x : ℕ → ℚ)
    (h : ∀ t < m, ∀ j < p, A t j = A' t j) :
    residSq m p A b x = residSq m p A' b x := by
  unfold residSq
  refine Finset.sum_congr rfl fun t ht => ?_
  rw [Finset.sum_congr rfl fun j hj =>
    by rw [h t (Finset.mem_range.mp ht) j (Finset.mem_range.mp hj)]]

theorem residSq_congr_vec (m p : ℕ) (A : ℕ → ℕ → ℚ) (b x x' : ℕ → ℚ)
    (h : ∀ j < p, x j = x' j) :
    residSq m p A b x = residSq m p A b x' := by
  unfold residSq
  refine Finset.sum_congr rfl fun t _ => ?_
  rw [Finset.sum_congr rfl fun j hj => by rw [h j (Finset.mem_range.mp hj)]]

theorem normSq_congr (p : ℕ) (x x' : ℕ → ℚ) (h : ∀ j < p, x j = x' j) :
    normSq p x = normSq p x' := by
  unfold normSq
  exact Finset.sum_congr rfl fun j hj => by rw [h j (Finset.mem_range.mp hj)]

theorem isMinNormLS_congr_left (m p : ℕ) (A A' : ℕ → ℕ → ℚ) (b x : ℕ → ℚ)
    (h : ∀ t < m, ∀ j < p, A t j = A' t j) (hx : IsMinNormLS m p A b x) :
    IsMinNormLS m p A' b x := by
  constructor
  · intro y
    rw [← residSq_congr_left m p A A' b x h, ← residSq_congr_left m p A A' b y h]
    exact hx.1 y
  · intro y hy
    rw [← residSq_congr_left m p A A' b x h, ← residSq_congr_left m p A A' b y h] at hy
    exact hx.2 y hy

/-- The minimum-norm least-squares solution is unique (on the tracked
coordinate range): the residual is convex, so the midpoint of two minimizers
also minimizes it, and the parallelogram law then forces the two minimum-norm
minimizers to coincide. -/
theorem isMinNormLS_unique (m p : ℕ) (A : ℕ → ℕ → ℚ) (b x₁ x₂ : ℕ → ℚ)
    (h₁ : IsMinNormLS m p A b x₁) (h₂ : IsMinNormLS m p A b x₂) :
    ∀ j < p, x₁ j = x₂ j := by
  have hr12 : residSq m p A b x₁ = residSq m p A b x₂ :=
    le_antisymm (h₁.1 x₂) (h₂.1 x₁)
  set z : ℕ → ℚ := fun j => (x₁ j + x₂ j) / 2 with hz
  have hrow : ∀ t, (∑ j ∈ Finset.range p, A t j * z j)
      = ((∑ j ∈ Finset.range p, A t j * x₁ j) + ∑ j ∈ Finset.range p, A t j * x₂ j) / 2 := by
    intro t
    rw [← Finset.sum_add_distrib, Finset.sum_div]
    refine Finset.sum_congr rfl fun j _ => ?_
    simp only [hz]
    ring
  have hrz : residSq m p A b z ≤ residSq m p A b x₁ := by
    have step : residSq m p A b z
        ≤ (residSq m p A b x₁ + residSq m p A b x₂) / 2 := by
      unfold residSq
      rw [← Finset.sum_add_distrib, Finset.sum_div]
      refine Finset.sum_le_sum fun t _ => ?_
      rw [hrow t]
      have h0 := sq_nonneg (((∑ j ∈ Finset.range p, A t j * x₁ j) - b t)
        - ((∑ j ∈ Finset.range p, A t j * x₂ j) - b t))
      nlinarith [h0]
    calc residSq m p A b z ≤ (residSq m p A b x₁ + residSq m p A b x₂) / 2 := step
      _ = residSq m p A b x₁ := by rw [← hr12]; ring
  have hn1z : normSq p x₁ ≤ normSq p z := h₁.2 z hrz
  have hn12 : normSq p x₁ = normSq p x₂ :=
    le_antisymm (h₁.2 x₂ (le_of_eq hr12.symm)) (h₂.2 x₁ (le_of_eq hr12))
  have hpar : normSq p z
      = (normSq p x₁ + normSq p x₂) / 2 - ∑ j ∈ Finset.range p, ((x₁ j - x₂ j) / 2) ^ 2 := by
    unfold normSq
    rw [← Finset.sum_add_distrib, Finset.sum_div, ← Finset.sum_sub_distrib]
    refine Finset.sum_congr rfl fun j _ => ?_
    simp only [hz]
    ring
  have hS : ∑ j ∈ Finset.range p, ((x₁ j - x₂ j) / 2) ^ 2 ≤ 0 := by
    rw [hpar, hn12] at hn1z
    linarith
  have hS0 : ∑ j ∈ Finset.range p, ((x₁ j - x₂ j) / 2) ^ 2 = 0 :=
    le_antisymm hS (Finset.sum_nonneg fun _ _ => sq_nonneg _)
  have hterm := (Finset.sum_eq_zero_iff_of_nonneg
    (fun j _ => sq_nonneg ((x₁ j - x₂ j) / 2))).mp hS0
  intro j hj
  have h0 := hterm j (Finset.mem_range.mpr hj)
  have := sq_eq_zero_iff.mp h0
  have : x₁ j - x₂ j = 0 := by linarith [this, div_eq_zero_iff.mp this]
  linarith

theorem broadcastOk_48 (T : ℕ) : broadcastOk T 48 = true := by
  simp [broadcastOk, dataWidth, extWidth]

/-- With the supported cadence of 48 samples per day, the fixed `48 * 7`
constant of lines 63–64 agrees with the `daily_meas * 7` pad, and the
roll-and-truncate construction is exactly the genuine windowed shift:
unavailable before `daily_meas · d` columns of history exist, the value from
`daily_meas · d` columns earlier afterwards. -/
theorem lag_roll_eq_shift (vu : Mat) (T c i t : ℕ) (hc : c < 3) (ht : t < T) :
    lagChannel vu T 48 c i t = laggedShiftSpec vu 48 (dayOffset c) i t := by
  have hsd : lagShift c 48 = 48 * dayOffset c := by
    unfold lagShift dayOffset
    split <;> rfl
  have hsv : lagShift c 48 = 48 ∨ lagShift c 48 = 96 ∨ lagShift c 48 = 336 := by
    interval_cases c <;> simp [lagShift]
  have hs1 : 48 ≤ lagShift c 48 := by omega
  have hs2 : lagShift c 48 ≤ 336 := by omega
  unfold lagChannel
  have hW : extWidth T 48 = T + 336 := by
    unfold extWidth
    omega
  have hidx : rollIdx (extWidth T 48) (lagShift c 48) (48 * 7 + t)
      = 336 + t - lagShift c 48 := by
    unfold rollIdx
    rw [hW, if_neg (by omega)]
    have h1 : lagShift c 48 % (T + 336) = lagShift c 48 := Nat.mod_eq_of_lt (by omega)
    rw [h1]
    have h2 : 48 * 7 + t + (T + 336 - lagShift c 48)
        = (336 + t - lagShift c 48) + (T + 336) := by omega
    rw [h2, Nat.add_mod_right]
    exact Nat.mod_eq_of_lt (by omega)
  rw [hidx]
  unfold v_extended laggedShiftSpec
  rw [← hsd]
  rcases Nat.lt_or_ge t (lagShift c 48) with hlt | hge
  · rw [if_pos (show 336 + t - lagShift c 48 < 336 by omega), if_pos hlt]
  · have hT1 : T ≠ 1 := by omega
    rw [if_neg (show ¬(336 + t - lagShift c 48 < 336) by omega), if_neg hT1,
      if_neg (show ¬(t < lagShift c 48) by omega)]
    have harith : 336 + t - lagShift c 48 - 336 = t - lagShift c 48 := by omega
    rw [harith]

/-! ## Claim C1 — interval validation -/

/-- C1: the claim says interval validation computes the delta of every
consecutive pair and fails with `IntervalInconsistencyError` when a pair
disagrees or the common delta is not 15 or 30.  The code instead returns the
first pair's delta unconditionally: on timestamps 0, 15, 45 minutes (deltas 15
and 30, inconsistent) it returns 15 and raises nothing, and deltas outside
{15, 30} such as 17 are accepted as well. -/
theorem check_intervals_first_pair_only :
    check_intervals [0, 15, 45] = some 15 ∧ check_intervals [0, 15, 45] ≠ none ∧
    check_intervals [0, 17, 34] = some 17 := by
  refine ⟨?_, ?_, ?_⟩ <;> simp [check_intervals]

/-! ## Claim C7 — daily sample count -/

/-- C7 (amended): `number_daily_meas` returns the floor of `1440 / delta` for
every positive delta, fails (with a `ZeroDivisionError`, not an
`InvalidDeltaError`) only for `delta = 0`, and for negative delta returns the
truncation toward zero of `1440 / delta` instead of failing. -/
theorem number_daily_meas_spec (delta : ℚ) :
    (0 < delta → number_daily_meas delta = some ⌊1440 / delta⌋) ∧
    (delta = 0 → number_daily_meas delta = none) ∧
    (delta < 0 → number_daily_meas delta = some ⌈1440 / delta⌉) := by
  refine ⟨?_, ?_, ?_⟩
  · intro h
    have hne : delta ≠ 0 := ne_of_gt h
    have hq : (24 * 60 : ℚ) / delta = 1440 / delta := by norm_num
    have hnn : (0 : ℚ) ≤ 1440 / delta := by positivity
    rw [number_daily_meas, if_neg hne, intTrunc, hq, if_pos hnn]
  · intro h
    rw [number_daily_meas, if_pos h]
  · intro h
    have hne : delta ≠ 0 := ne_of_lt h
    have hq : (24 * 60 : ℚ) / delta = 1440 / delta := by norm_num
    have hneg : 1440 / delta < 0 := div_neg_of_pos_of_neg (by norm_num) h
    rw [number_daily_meas, if_neg hne, intTrunc, hq, if_neg (not_le.mpr hneg)]

/-- Witness for C7 at the two supported cadences and at zero. -/
theorem number_daily_meas_spec_witness :
    number_daily_meas 15 = some 96 ∧ number_daily_meas 30 = some 48 ∧
    number_daily_meas 0 = none := by
  refine ⟨?_, ?_, (number_daily_meas_spec 0).2.1 rfl⟩
  · rw [(number_daily_meas_spec 15).1 (by norm_num)]
    norm_num
  · rw [(number_daily_meas_spec 30).1 (by norm_num)]
    norm_num

/-- Counterexample for C7 as stated: the claim requires failure for every
`delta ≤ 0`, but at `delta = -15` the code returns `-96` without failing. -/
theorem number_daily_meas_accepts_negative :
    number_daily_meas (-15) = some (-96) ∧ number_daily_meas (-15) ≠ none := by
  constructor
  · rw [number_daily_meas, if_neg (by norm_num), intTrunc, if_neg (by norm_num)]
    have h96 : (24 * 60 : ℚ) / (-15) = ((-96 : ℤ) : ℚ) := by norm_num
    rw [h96, Int.ceil_intCast]
  · rw [number_daily_meas, if_neg (by norm_num)]
    simp

/-! ## Claim C2 — warm-up padding width -/

/-- C2: the claim says the 7-day pad width is `daily_count × 7` at every use
site for both supported cadences.  Lines 63–64 instead use the fixed constant
`48 * 7 = 336`: with `daily_count = 96` the extended array is `T + 672` wide
but the data is placed from column 336 on, so the NumPy assignment of line 64
fails on any window with `T = 2` columns (while the same input works at
`daily_count = 48`, the one cadence the constant was tuned for). -/
theorem beta_pred_pad_mismatch_at_96 :
    beta_pred zeroSolver (fun _ _ => some 1) (fun _ _ => some 1) 1 1 2 96 = none ∧
    (beta_pred zeroSolver (fun _ _ => some 1) (fun _ _ => some 1) 1 1 2 48).isSome = true ∧
    dataWidth 2 96 = 338 ∧ dataWidth 2 48 = 2 := ⟨rfl, rfl, rfl, rfl⟩

/-! ## Claim C4 — lag construction vs. genuine windowed shift -/

/-- C4 (amended): with `daily_count = 48` — the only cadence whose
`daily_count × 7` pad agrees with the fixed 336-column fill of lines 63–64 —
every lag channel produced by the roll-and-truncate construction equals, on
the whole T-length window, the genuine windowed shift by `daily_count · d`
columns that marks pre-window history unavailable, for every channel
`c < 3` (day offsets 1, 2, 7); in particular no tail value leaks into the
early lag columns.  (With `daily_count = 96` the construction either fails or,
for `T = 1`, broadcasts the tail value into the earliest lag column; see the
counterexample.) -/
theorem lagChannel_eq_laggedShiftSpec (vu : Mat) (T c i t : ℕ) (hc : c < 3) (ht : t < T) :
    lagChannel vu T 48 c i t = laggedShiftSpec vu 48 (dayOffset c) i t :=
  lag_roll_eq_shift vu T c i t hc ht

/-- Witness for C4: a concrete window of 400 columns at cadence 48; at
`t = 50` the 1-day lag is the value 48 columns earlier, and at `t = 30` it is
unavailable. -/
theorem lagChannel_eq_laggedShiftSpec_witness :
    lagChannel (fun _ t => some (t : ℚ)) 400 48 0 0 50
      = laggedShiftSpec (fun _ t => some (t : ℚ)) 48 (dayOffset 0) 0 50 ∧
    lagChannel (fun _ t => some (t : ℚ)) 400 48 0 0 30
      = laggedShiftSpec (fun _ t => some (t : ℚ)) 48 (dayOffset 0) 0 30 :=
  ⟨lagChannel_eq_laggedShiftSpec (fun _ t => some (t : ℚ)) 400 0 0 50 (by omega) (by omega),
   lagChannel_eq_laggedShiftSpec (fun _ t => some (t : ℚ)) 400 0 0 30 (by omega) (by omega)⟩

/-- Counterexample for C4 as stated: at the supported cadence
`daily_count = 96` with a single-column window, the line-64 broadcast succeeds
and the roll-and-truncate 1-day lag channel holds the series' current (tail)
value, where the genuine windowed shift is unavailable. -/
theorem lagChannel_leaks_at_96 :
    broadcastOk 1 96 = true ∧
    lagChannel (fun _ _ => some 5) 1 96 0 0 0 = some 5 ∧
    laggedShiftSpec (fun _ _ => some 5) 96 1 0 0 = none := by
  refine ⟨rfl, ?_, ?_⟩
  · simp [lagChannel, v_extended, rollIdx, lagShift, extWidth]
  · simp [laggedShiftSpec]

/-! ## Claim C5 — unavailable regressor propagation -/

/-- C5 (amended): when any lag regressor value is unavailable, `v_pred` does
not substitute zero but aborts the whole call with a `TypeError` (embedded as
`none`): no per-meter unavailable marker is produced, and no meter — not even
one whose regressors are all available — receives a prediction. -/
theorem v_pred_unavailable_aborts (exc : Mat) (act : ℕ → ℚ) (beta : ℕ → ℕ → ℚ)
    (U K r i : ℕ) (hr : r < 3) (hi : i < U) (hnone : exc r i = none) :
    v_pred exc act beta U K = none := by
  rw [v_pred, if_neg]
  intro h
  have := (allSome_iff exc 3 U).mp h r hr i hi
  rw [hnone] at this
  exact Bool.false_ne_true this

/-- Witness for C5: a concrete two-meter instance whose first meter misses its
1-day lag value. -/
theorem v_pred_unavailable_aborts_witness :
    v_pred (fun r i => if i = 0 ∧ r = 0 then none else some 230) (fun _ => 230)
      (fun _ _ => 1) 2 1 = none :=
  v_pred_unavailable_aborts (fun r i => if i = 0 ∧ r = 0 then none else some 230)
    (fun _ => 230) (fun _ _ => 1) 2 1 0 0 (by omega) (by omega) rfl

/-- Counterexample for C5 as stated: the claim requires an unavailable result
for the affected meter only, with no crash; here meter 1's regressors are all
available yet the whole call returns nothing, because the `TypeError` raised
on meter 0's missing lag aborts the request. -/
theorem v_pred_no_per_meter_result :
    v_pred (fun r i => if i = 0 ∧ r = 0 then none else some 230) (fun _ => 230)
      (fun _ _ => 1) 2 1 = none ∧
    (∀ r < 3, ((fun r i => if i = 0 ∧ r = 0 then none else some (230 : ℚ)) r 1).isSome) := by
  constructor
  · rfl
  · decide

/-! ## Claim C8 — prediction is an unclipped dot product -/

/-- C8: when every regressor is available, each excluded meter's prediction is
exactly the dot product of `[lag-1d, lag-2d, lag-7d, known-1 … known-K]` with
that meter's coefficient column — purely linear, with no clipping or bound
enforcement applied. -/
theorem v_pred_dot_product (exc : Mat) (act : ℕ → ℚ) (beta : ℕ → ℕ → ℚ) (U K : ℕ)
    (h : allSome exc 3 U = true) :
    ∃ l, v_pred exc act beta U K = some l ∧ l.length = U ∧
      ∀ i < U, l.getD i 0
        = ((exc 0 i).getD 0 * beta 0 i + (exc 1 i).getD 0 * beta 1 i
            + (exc 2 i).getD 0 * beta 2 i)
          + ∑ k ∈ Finset.range K, act k * beta (3 + k) i := by
  refine ⟨_, by rw [v_pred, if_pos h], by simp, ?_⟩
  intro i hi
  have hget : ((List.range U).map fun i =>
        ∑ j ∈ Finset.range (3 + K), indepVec exc act i j * beta j i).getD i 0
      = ∑ j ∈ Finset.range (3 + K), indepVec exc act i j * beta j i := by
    rw [List.getD_eq_getElem?_getD, List.getElem?_map, List.getElem?_range hi]
    rfl
  rw [hget, Finset.sum_range_add]
  congr 1
  · show ∑ j ∈ Finset.range 3, indepVec exc act i j * beta j i = _
    rw [Finset.sum_range_succ, Finset.sum_range_succ, Finset.sum_range_one]
    simp [indepVec]
  · refine Finset.sum_congr rfl fun k _ => ?_
    simp [indepVec]

/-- Witness for C8 on a concrete one-meter, one-known instance: lags 1, 2, 3
with coefficients 0, 1, 2, and one known meter at 10 with coefficient 3 give
the prediction 1·0 + 2·1 + 3·2 + 10·3 = 38. -/
theorem v_pred_dot_product_witness :
    ∃ l, v_pred (fun r _ => some ((r : ℚ) + 1)) (fun _ => 10) (fun j _ => (j : ℚ)) 1 1
        = some l ∧ l.length = 1 ∧ ∀ i < 1, l.getD i 0 = 38 := by
  obtain ⟨l, h1, h2, h3⟩ :=
    v_pred_dot_product (fun r _ => some ((r : ℚ) + 1)) (fun _ => 10) (fun j _ => (j : ℚ)) 1 1 rfl
  refine ⟨l, h1, h2, fun i hi => ?_⟩
  rw [h3 i hi]
  norm_num

/-! ## Claim C3 — per-meter OLS fit with minimum-norm semantics -/

/-- On the warm-up-truncated training window at cadence 48, the design matrix
rows are exactly the three self-lags (values 48, 96 and 336 columns before
training time `336 + t`) followed by the known-meter voltages at `336 + t`. -/
theorem trainDesign_explicit (vk vu : Mat) (T i t j : ℕ) (ht : t < T - 48 * 7) :
    trainDesign vk vu T 48 i t j
      = if j = 0 then (vu i (288 + t)).getD 0
        else if j = 1 then (vu i (240 + t)).getD 0
        else if j = 2 then (vu i t).getD 0
        else (vk (j - 3) (336 + t)).getD 0 := by
  have hT : 48 * 7 + t < T := by omega
  have key : ∀ c, c < 3 → (lagChannel vu T 48 c i (48 * 7 + t)).getD 0
      = (vu i (48 * 7 + t - 48 * dayOffset c)).getD 0 := by
    intro c hc
    have hd : dayOffset c ≤ 7 := by
      unfold dayOffset
      split
      · omega
      · split <;> omega
    rw [lag_roll_eq_shift vu T c i (48 * 7 + t) hc hT]
    unfold laggedShiftSpec
    rw [if_neg (by omega)]
  unfold trainDesign regrEntry
  by_cases h0 : j = 0
  · subst h0
    have hh : 48 * 7 + t - 48 * dayOffset 0 = 288 + t := by
      rw [show dayOffset 0 = 1 from rfl]
      omega
    rw [if_pos (by omega), key 0 (by omega), hh, if_pos rfl]
  · by_cases h1 : j = 1
    · subst h1
      have hh : 48 * 7 + t - 48 * dayOffset 1 = 240 + t := by
        rw [show dayOffset 1 = 2 from rfl]
        omega
      rw [if_pos (by omega), key 1 (by omega), hh, if_neg (by omega), if_pos rfl]
    · by_cases h2 : j = 2
      · subst h2
        have hh : 48 * 7 + t - 48 * dayOffset 2 = t := by
          rw [show dayOffset 2 = 7 from rfl]
          omega
        rw [if_pos (by omega), key 2 (by omega), hh, if_neg (by omega),
          if_neg (by omega), if_pos rfl]
      · rw [if_neg (by omega), if_neg h0, if_neg h1, if_neg h2]

/-- C3: at the working cadence (`daily_count = 48`), the fitter runs
independently per unknown meter, discards the first `daily_count × 7` warm-up
columns of both the regressor slice and the target row, and each column `i`
of the resulting `(3+K) × U` coefficient matrix is the minimum-norm
least-squares solution — with pseudo-inverse semantics, so rank-deficient or
short (`T′ < 3+K`) windows still yield a coefficient vector — of the explicit
`T′ × (3+K)` system whose row at training time `t` is
`[v(t-48), v(t-96), v(t-336), known-1 … known-K]` with target `v(t)` over the
last `T′ = T - 336` timestamps.  The solver `ls` stands for
`np.linalg.lstsq(·, ·, rcond=None)` and is assumed to satisfy its documented
minimum-norm semantics on the instances it is called on. -/
theorem beta_pred_ols_min_norm (ls : Solver) (vk vu : Mat) (U K T : ℕ)
    (hvu : allSome vu U T = true) (hvk : allSome vk K T = true)
    (hls : ∀ i < U, IsMinNormLS (T - 48 * 7) (3 + K) (trainDesign vk vu T 48 i)
        (trainTarget vu 48 i)
        (ls (T - 48 * 7) (3 + K) (trainDesign vk vu T 48 i) (trainTarget vu 48 i))) :
    ∃ B, beta_pred ls vk vu U K T 48 = some B ∧
      ∀ i < U, IsMinNormLS (T - 48 * 7) (3 + K)
        (fun t j =>
          if j = 0 then (vu i (288 + t)).getD 0
          else if j = 1 then (vu i (240 + t)).getD 0
          else if j = 2 then (vu i t).getD 0
          else (vk (j - 3) (336 + t)).getD 0)
        (fun t => (vu i (336 + t)).getD 0)
        (fun r => B r i) := by
  have hguard : (allSome vu U T && allSome vk K T && broadcastOk T 48) = true := by
    rw [hvu, hvk, broadcastOk_48]
    rfl
  refine ⟨_, by rw [beta_pred, if_pos hguard], ?_⟩
  intro i hi
  exact isMinNormLS_congr_left (T - 48 * 7) (3 + K) (trainDesign vk vu T 48 i) _
    (trainTarget vu 48 i) _
    (fun t ht j _ => trainDesign_explicit vk vu T i t j ht) (hls i hi)

set_option maxRecDepth 4000 in
/-- Witness for C3 on a degenerate concrete instance: a window of `T = 336`
columns leaves a zero-row training window, on which the zero solver satisfies
the minimum-norm property. -/
theorem beta_pred_ols_min_norm_witness :
    ∃ B, beta_pred zeroSolver (fun _ _ => some 3) (fun _ _ => some 7) 1 0 336 48 = some B ∧
      ∀ i < 1, IsMinNormLS (336 - 48 * 7) (3 + 0)
        (fun t j =>
          if j = 0 then ((fun _ _ => some (7 : ℚ)) i (288 + t)).getD 0
          else if j = 1 then ((fun _ _ => some (7 : ℚ)) i (240 + t)).getD 0
          else if j = 2 then ((fun _ _ => some (7 : ℚ)) i t).getD 0
          else ((fun _ _ => some (3 : ℚ)) (j - 3) (336 + t)).getD 0)
        (fun t => ((fun _ _ => some (7 : ℚ)) i (336 + t)).getD 0)
        (fun r => B r i) :=
  beta_pred_ols_min_norm zeroSolver (fun _ _ => some 3) (fun _ _ => some 7) 1 0 336
    (by decide) (by decide)
    (fun i _ => isMinNormLS_zero_rows (3 + 0) (trainDesign (fun _ _ => some 3)
      (fun _ _ => some 7) 336 48 i) (trainTarget (fun _ _ => some 7) 48 i))

/-! ## Claim C6 — permutation consistency of fit and predict -/

/-- Reindexing a sum over `Finset.range p` along a self-bijection given with
its explicit inverse. -/
theorem sum_range_perm (p : ℕ) (σ τ : ℕ → ℕ)
    (hσ : ∀ j < p, σ j < p) (hτ : ∀ j < p, τ j < p)
    (hτσ : ∀ j < p, τ (σ j) = j) (hστ : ∀ j < p, σ (τ j) = j)
    (f : ℕ → ℚ) :
    ∑ j ∈ Finset.range p, f (σ j) = ∑ j ∈ Finset.range p, f j := by
  refine Finset.sum_bij' (fun a _ => σ a) (fun b _ => τ b) ?_ ?_ ?_ ?_ ?_
  · intro a ha
    exact Finset.mem_range.mpr (hσ a (Finset.mem_range.mp ha))
  · intro b hb
    exact Finset.mem_range.mpr (hτ b (Finset.mem_range.mp hb))
  · intro a ha
    exact hτσ a (Finset.mem_range.mp ha)
  · intro b hb
    exact hστ b (Finset.mem_range.mp hb)
  · intro a _
    rfl

/-- A permutation of the `K` known-meter channels, extended to the `3 + K`
regression channels: the three lag channels stay fixed. -/
def extChan (σ : ℕ → ℕ) (j : ℕ) : ℕ := if j < 3 then j else 3 + σ (j - 3)

theorem extChan_lt (σ : ℕ → ℕ) (K : ℕ) (hσ : ∀ k < K, σ k < K) :
    ∀ j < 3 + K, extChan σ j < 3 + K := by
  intro j hj
  unfold extChan
  split
  · omega
  · have := hσ (j - 3) (by omega)
    omega

theorem extChan_inv (σ τ : ℕ → ℕ) (K : ℕ) (hτσ : ∀ k < K, τ (σ k) = k)
    (hσ : ∀ k < K, σ k < K) :
    ∀ j < 3 + K, extChan τ (extChan σ j) = j := by
  intro j hj
  unfold extChan
  by_cases h : j < 3
  · simp [h]
  · rw [if_neg h, if_neg (by omega)]
    have h3 : 3 + σ (j - 3) - 3 = σ (j - 3) := by omega
    rw [h3, hτσ (j - 3) (by omega)]
    omega

/-- The minimum-norm least-squares property is equivariant under permuting
the coordinate axes: if `x` solves `(A, b)` then `x ∘ σ` solves the system
whose columns are permuted by `σ`. -/
theorem isMinNormLS_reindex (m p : ℕ) (A : ℕ → ℕ → ℚ) (b x : ℕ → ℚ) (σ τ : ℕ → ℕ)
    (hσ : ∀ j < p, σ j < p) (hτ : ∀ j < p, τ j < p)
    (hτσ : ∀ j < p, τ (σ j) = j) (hστ : ∀ j < p, σ (τ j) = j)
    (h : IsMinNormLS m p A b x) :
    IsMinNormLS m p (fun t j => A t (σ j)) b fun j => x (σ j) := by
  have hres : ∀ y : ℕ → ℚ, residSq m p (fun t j => A t (σ j)) b y
      = residSq m p A b fun j => y (τ j) := by
    intro y
    unfold residSq
    refine Finset.sum_congr rfl fun t _ => ?_
    have hsum : ∑ j ∈ Finset.range p, A t (σ j) * y j
        = ∑ j ∈ Finset.range p, A t j * y (τ j) := by
      calc ∑ j ∈ Finset.range p, A t (σ j) * y j
          = ∑ j ∈ Finset.range p, A t (σ j) * y (τ (σ j)) :=
            Finset.sum_congr rfl fun j hj => by rw [hτσ j (Finset.mem_range.mp hj)]
        _ = ∑ j ∈ Finset.range p, A t j * y (τ j) :=
            sum_range_perm p σ τ hσ hτ hτσ hστ fun j => A t j * y (τ j)
    rw [hsum]
  have hxστ : residSq m p A b (fun j => x (σ (τ j))) = residSq m p A b x :=
    residSq_congr_vec m p A b _ x fun j hj => by rw [hστ j hj]
  have hnσ : normSq p (fun j => x (σ j)) = normSq p x :=
    sum_range_perm p σ τ hσ hτ hτσ hστ fun j => x j ^ 2
  constructor
  · intro y
    rw [hres y, hres fun j => x (σ j)]
    rw [hxστ]
    exact h.1 _
  · intro y hy
    rw [hres y, hres fun j => x (σ j), hxστ] at hy
    have hn := h.2 (fun j => y (τ j)) hy
    have hnτ : normSq p (fun j => y (τ j)) = normSq p y :=
      sum_range_perm p τ σ hτ hσ hστ hτσ fun j => y j ^ 2
    rw [hnσ]
    rw [hnτ] at hn
    exact hn

/-- Permuting the known-meter rows at fit time permutes the channels of the
design matrix by `extChan σ`. -/
theorem trainDesign_perm (vk vu : Mat) (T i : ℕ) (σ : ℕ → ℕ) (t j : ℕ) :
    trainDesign (fun k tt => vk (σ k) tt) vu T 48 i t j
      = trainDesign vk vu T 48 i t (extChan σ j) := by
  unfold trainDesign regrEntry extChan
  by_cases h : j < 3
  · simp only [if_pos h]
  · rw [if_neg h, if_neg h, if_neg (by omega)]
    have h3 : 3 + σ (j - 3) - 3 = σ (j - 3) := by omega
    rw [h3]

/-- Permuting the known-current vector at predict time permutes the feature
vector by `extChan σ`. -/
theorem indepVec_perm (exc : Mat) (act : ℕ → ℚ) (σ : ℕ → ℕ) (i j : ℕ) :
    indepVec exc (fun k => act (σ k)) i j = indepVec exc act i (extChan σ j) := by
  unfold indepVec extChan
  by_cases h : j < 3
  · simp only [if_pos h]
  · rw [if_neg h, if_neg h, if_neg (by omega)]
    have h3 : 3 + σ (j - 3) - 3 = σ (j - 3) := by omega
    rw [h3]

/-- C6: applying a permutation `σ` of the known meters to the known-voltage
matrix at fit time and the same permutation to the known-current vector at
predict time yields exactly the same predictions as the unpermuted run.  The
two least-squares calls (`ls` for the original run, `ls'` for the permuted
run) each stand for `np.linalg.lstsq(·, ·, rcond=None)` and are assumed to
return minimum-norm solutions on the instances they receive; uniqueness of
the minimum-norm solution then pins the permuted coefficients to a
permutation of the original ones. -/
theorem perm_consistency (ls ls' : Solver) (σ τ : ℕ → ℕ) (vk vu exc : Mat)
    (act : ℕ → ℚ) (U K T : ℕ)
    (hσ : ∀ k < K, σ k < K) (hτ : ∀ k < K, τ k < K)
    (hτσ : ∀ k < K, τ (σ k) = k) (hστ : ∀ k < K, σ (τ k) = k)
    (hvu : allSome vu U T = true) (hvk : allSome vk K T = true)
    (hls : ∀ i < U, IsMinNormLS (T - 48 * 7) (3 + K) (trainDesign vk vu T 48 i)
        (trainTarget vu 48 i)
        (ls (T - 48 * 7) (3 + K) (trainDesign vk vu T 48 i) (trainTarget vu 48 i)))
    (hls' : ∀ i < U, IsMinNormLS (T - 48 * 7) (3 + K)
        (trainDesign (fun k t => vk (σ k) t) vu T 48 i) (trainTarget vu 48 i)
        (ls' (T - 48 * 7) (3 + K) (trainDesign (fun k t => vk (σ k) t) vu T 48 i)
          (trainTarget vu 48 i))) :
    (beta_pred ls' (fun k t => vk (σ k) t) vu U K T 48).bind
        (fun B => v_pred exc (fun k => act (σ k)) B U K)
      = (beta_pred ls vk vu U K T 48).bind fun B => v_pred exc act B U K := by
  have hvk' : allSome (fun k t => vk (σ k) t) K T = true := by
    rw [allSome_iff] at hvk ⊢
    intro k hk j hj
    exact hvk (σ k) (hσ k hk) j hj
  have hg1 : (allSome vu U T && allSome vk K T && broadcastOk T 48) = true := by
    rw [hvu, hvk, broadcastOk_48]
    rfl
  have hg2 : (allSome vu U T && allSome (fun k t => vk (σ k) t) K T
      && broadcastOk T 48) = true := by
    rw [hvu, hvk', broadcastOk_48]
    rfl
  rw [beta_pred, if_pos hg2, beta_pred, if_pos hg1, Option.some_bind, Option.some_bind]
  rw [v_pred, v_pred]
  by_cases hexc : allSome exc 3 U = true
  · rw [if_pos hexc, if_pos hexc]
    congr 1
    refine List.map_congr_left fun i hi => ?_
    have hiU : i < U := List.mem_range.mp hi
    have hperm : IsMinNormLS (T - 48 * 7) (3 + K)
        (trainDesign (fun k t => vk (σ k) t) vu T 48 i) (trainTarget vu 48 i)
        (fun j => ls (T - 48 * 7) (3 + K) (trainDesign vk vu T 48 i)
          (trainTarget vu 48 i) (extChan σ j)) := by
      have h1 := isMinNormLS_reindex (T - 48 * 7) (3 + K) (trainDesign vk vu T 48 i)
        (trainTarget vu 48 i)
        (ls (T - 48 * 7) (3 + K) (trainDesign vk vu T 48 i) (trainTarget vu 48 i))
        (extChan σ) (extChan τ) (extChan_lt σ K hσ) (extChan_lt τ K hτ)
        (extChan_inv σ τ K hτσ hσ) (extChan_inv τ σ K hστ hτ) (hls i hiU)
      exact isMinNormLS_congr_left (T - 48 * 7) (3 + K) _ _ (trainTarget vu 48 i) _
        (fun t _ j _ => (trainDesign_perm vk vu T i σ t j).symm) h1
    have hueq := isMinNormLS_unique (T - 48 * 7) (3 + K)
      (trainDesign (fun k t => vk (σ k) t) vu T 48 i) (trainTarget vu 48 i) _ _
      (hls' i hiU) hperm
    calc ∑ j ∈ Finset.range (3 + K), indepVec exc (fun k => act (σ k)) i j
          * ls' (T - 48 * 7) (3 + K) (trainDesign (fun k t => vk (σ k) t) vu T 48 i)
            (trainTarget vu 48 i) j
        = ∑ j ∈ Finset.range (3 + K), indepVec exc act i (extChan σ j)
          * ls (T - 48 * 7) (3 + K) (trainDesign vk vu T 48 i)
            (trainTarget vu 48 i) (extChan σ j) := by
          refine Finset.sum_congr rfl fun j hj => ?_
          rw [hueq j (Finset.mem_range.mp hj), indepVec_perm]
      _ = ∑ j ∈ Finset.range (3 + K), indepVec exc act i j
          * ls (T - 48 * 7) (3 + K) (trainDesign vk vu T 48 i)
            (trainTarget vu 48 i) j :=
          sum_range_perm (3 + K) (extChan σ) (extChan τ) (extChan_lt σ K hσ)
            (extChan_lt τ K hτ) (extChan_inv σ τ K hτσ hσ) (extChan_inv τ σ K hστ hτ)
            fun j => indepVec exc act i j * ls (T - 48 * 7) (3 + K)
              (trainDesign vk vu T 48 i) (trainTarget vu 48 i) j
  · rw [if_neg hexc, if_neg hexc]

/-- The transposition of the first two known meters, used as a concrete
permutation. -/
def swapTwo : ℕ → ℕ := fun n => if n = 0 then 1 else if n = 1 then 0 else n

/-- Concrete known-meter matrix for the C6 witness. -/
def vkW : Mat := fun k _ => some ((k : ℚ) + 2)

/-- Concrete unknown-meter matrix for the C6 witness. -/
def vuW : Mat := fun _ _ => some 9

/-- Concrete lag matrix for the C6 witness. -/
def excW : Mat := fun _ _ => some 4

/-- Witness for C6: one unknown meter, two known meters swapped by
`swapTwo`, an empty training window (`T = 0`), and the zero solver, which
satisfies the minimum-norm property on zero-row systems. -/
theorem perm_consistency_witness :
    (beta_pred zeroSolver (fun k t => vkW (swapTwo k) t) vuW 1 2 0 48).bind
        (fun B => v_pred excW (fun k => (fun q => (q : ℚ) + 6) (swapTwo k)) B 1 2)
      = (beta_pred zeroSolver vkW vuW 1 2 0 48).bind
          fun B => v_pred excW (fun q => (q : ℚ) + 6) B 1 2 :=
  perm_consistency zeroSolver zeroSolver swapTwo swapTwo vkW vuW excW
    (fun q => (q : ℚ) + 6) 1 2 0
    (by decide) (by decide) (by decide) (by decide) (by decide) (by decide)
    (fun i _ => isMinNormLS_zero_rows (3 + 2) (trainDesign vkW vuW 0 48 i)
      (trainTarget vuW 48 i))
    (fun i _ => isMinNormLS_zero_rows (3 + 2)
      (trainDesign (fun k t => vkW (swapTwo k) t) vuW 0 48 i) (trainTarget vuW 48 i))

/-! ## Claim C9 — measurement aligner -/

theorem foldl_dictInsert_none_iff {α β : Type} [DecidableEq α] [DecidableEq β]
    (rows : List (MeasurementRow α β)) (f : α → β → Option ℚ) (m : α) (t : β) :
    (rows.foldl dictInsert f) m t = none
      ↔ (∀ r ∈ rows, ¬(r.meter = m ∧ r.ts = t)) ∧ f m t = none := by
  induction rows generalizing f with
  | nil => simp
  | cons r rs ih =>
    rw [List.foldl_cons, ih]
    unfold dictInsert
    by_cases h : m = r.meter ∧ t = r.ts
    · rw [if_pos h]
      constructor
      · rintro ⟨-, h2⟩
        cases h2
      · rintro ⟨hall, -⟩
        exact absurd ⟨h.1.symm, h.2.symm⟩ (hall r (List.mem_cons_self r rs))
    · rw [if_neg h]
      constructor
      · rintro ⟨hall, hf⟩
        refine ⟨fun r' hr' => ?_, hf⟩
        rcases List.mem_cons.mp hr' with he | hm
        · subst he
          rintro ⟨h1, h2⟩
          exact h ⟨h1.symm, h2.symm⟩
        · exact hall r' hm
      · rintro ⟨hall, hf⟩
        exact ⟨fun r' hr' => hall r' (List.mem_cons_of_mem r hr'), hf⟩

theorem foldl_dictInsert_some {α β : Type} [DecidableEq α] [DecidableEq β]
    (rows : List (MeasurementRow α β)) (f : α → β → Option ℚ) (m : α) (t : β) (v : ℚ) :
    (rows.foldl dictInsert f) m t = some v →
      (∃ r ∈ rows, r.meter = m ∧ r.ts = t ∧ r.v = v) ∨ f m t = some v := by
  induction rows generalizing f with
  | nil =>
    intro h
    exact Or.inr h
  | cons r rs ih =>
    intro h
    rw [List.foldl_cons] at h
    rcases ih (dictInsert f r) h with hex | hf
    · obtain ⟨r', hr', hm⟩ := hex
      exact Or.inl ⟨r', List.mem_cons_of_mem r hr', hm⟩
    · unfold dictInsert at hf
      by_cases hc : m = r.meter ∧ t = r.ts
      · rw [if_pos hc] at hf
        exact Or.inl ⟨r, List.mem_cons_self r rs,
          hc.1.symm, hc.2.symm, Option.some.inj hf⟩
      · rw [if_neg hc] at hf
        exact Or.inr hf

theorem meterDataOf_none_iff {α β : Type} [DecidableEq α] [DecidableEq β]
    (rows : List (MeasurementRow α β)) (m : α) (t : β) :
    meterDataOf rows m t = none ↔ ∀ r ∈ rows, ¬(r.meter = m ∧ r.ts = t) := by
  unfold meterDataOf
  rw [foldl_dictInsert_none_iff]
  simp

theorem meterDataOf_some {α β : Type} [DecidableEq α] [DecidableEq β]
    (rows : List (MeasurementRow α β)) (m : α) (t : β) (v : ℚ) :
    meterDataOf rows m t = some v → ∃ r ∈ rows, r.meter = m ∧ r.ts = t ∧ r.v = v := by
  intro h
  rcases foldl_dictInsert_some rows _ m t v h with hex | hf
  · exact hex
  · cases hf

theorem mem_sortedTimestampsOf {α β : Type} [DecidableEq β] [LinearOrder β]
    (rows : List (MeasurementRow α β)) (t : β) :
    t ∈ sortedTimestampsOf rows ↔ ∃ r ∈ rows, r.ts = t := by
  unfold sortedTimestampsOf
  rw [(List.perm_insertionSort (· ≤ ·) _).mem_iff, List.mem_dedup, List.mem_map]

theorem build_voltage_matrix_entry {α β : Type} (ids : List α) (md : α → β → Option ℚ)
    (ts : List β) (i j : ℕ) (hi : i < ids.length) (hj : j < ts.length) :
    ((build_voltage_matrix ids md ts).getD i []).getD j none
      = md (ids.get ⟨i, hi⟩) (ts.get ⟨j, hj⟩) := by
  unfold build_voltage_matrix
  have hlen : i < (List.map (fun m => List.map (fun t => md m t) ts) ids).length := by
    rw [List.length_map]
    exact hi
  rw [List.getD_eq_getElem _ [] hlen, List.getElem_map]
  have hlen2 : j < (List.map (fun t => md ids[i] t) ts).length := by
    rw [List.length_map]
    exact hj
  rw [List.getD_eq_getElem _ none hlen2, List.getElem_map]
  rw [List.get_eq_getElem, List.get_eq_getElem]

/-- C9: the aligner turns a list of raw (meter, timestamp, value) rows and a
caller-supplied meter order into a dense matrix whose rows follow exactly the
supplied order and whose columns follow the sorted sequence of the distinct
timestamps seen in the input; a cell is `none` (the unavailable marker, never
an imputed or zero value) exactly when the input has no row for that (meter,
timestamp) pair, and an available cell always carries a value present in the
input for that pair. -/
theorem aligner_spec {α β : Type} [DecidableEq α] [DecidableEq β] [LinearOrder β]
    (rows : List (MeasurementRow α β)) (ids : List α) (i j : ℕ)
    (hi : i < ids.length) (hj : j < (sortedTimestampsOf rows).length) :
    (build_voltage_matrix ids (organize_measurements_by_meter rows).1
        (organize_measurements_by_meter rows).2).length = ids.length ∧
    ((build_voltage_matrix ids (organize_measurements_by_meter rows).1
        (organize_measurements_by_meter rows).2).getD i []).length
      = (sortedTimestampsOf rows).length ∧
    (sortedTimestampsOf rows).Sorted (· ≤ ·) ∧
    (sortedTimestampsOf rows).Nodup ∧
    (∀ t, t ∈ sortedTimestampsOf rows ↔ ∃ r ∈ rows, r.ts = t) ∧
    (((build_voltage_matrix ids (organize_measurements_by_meter rows).1
          (organize_measurements_by_meter rows).2).getD i []).getD j none = none
      ↔ ∀ r ∈ rows, ¬(r.meter = ids.get ⟨i, hi⟩
          ∧ r.ts = (sortedTimestampsOf rows).get ⟨j, hj⟩)) ∧
    (∀ v, ((build_voltage_matrix ids (organize_measurements_by_meter rows).1
          (organize_measurements_by_meter rows).2).getD i []).getD j none = some v →
        ∃ r ∈ rows, r.meter = ids.get ⟨i, hi⟩
          ∧ r.ts = (sortedTimestampsOf rows).get ⟨j, hj⟩ ∧ r.v = v) := by
  have hentry := build_voltage_matrix_entry ids (meterDataOf rows)
    (sortedTimestampsOf rows) i j hi hj
  refine ⟨?_, ?_, List.sorted_insertionSort _ _,
    (List.perm_insertionSort _ _).nodup_iff.mpr (List.nodup_dedup _),
    mem_sortedTimestampsOf rows, ?_, ?_⟩
  · unfold build_voltage_matrix
    exact List.length_map ids _
  · show ((build_voltage_matrix ids (meterDataOf rows)
        (sortedTimestampsOf rows)).getD i []).length = _
    unfold build_voltage_matrix
    have hlen : i < (List.map (fun m =>
        List.map (fun t => meterDataOf rows m t) (sortedTimestampsOf rows)) ids).length := by
      rw [List.length_map]
      exact hi
    rw [List.getD_eq_getElem _ [] hlen, List.getElem_map]
    exact List.length_map _ _
  · show (((build_voltage_matrix ids (meterDataOf rows) (sortedTimestampsOf rows)).getD
        i []).getD j none = none) ↔ _
    rw [hentry]
    exact meterDataOf_none_iff rows _ _
  · intro v
    show (((build_voltage_matrix ids (meterDataOf rows) (sortedTimestampsOf rows)).getD
        i []).getD j none = some v) → _
    rw [hentry]
    exact meterDataOf_some rows _ _ v

/-- Concrete rows for the C9 witness: meter 2 at timestamp 20, meter 1 at
timestamp 10 (ids and timestamps abstracted as naturals). -/
def rowsW : List (MeasurementRow ℕ ℕ) := [⟨2, 20, 5⟩, ⟨1, 10, 7⟩]

/-- Witness for C9 at the concrete input `rowsW` with meter order `[1, 2]`,
cell (0, 1): meter 1 has no measurement at the second sorted timestamp 20, so
that cell carries the unavailable marker. -/
theorem aligner_spec_witness :
    (build_voltage_matrix [1, 2] (organize_measurements_by_meter rowsW).1
        (organize_measurements_by_meter rowsW).2).length = ([1, 2] : List ℕ).length ∧
    ((build_voltage_matrix [1, 2] (organize_measurements_by_meter rowsW).1
        (organize_measurements_by_meter rowsW).2).getD 0 []).length
      = (sortedTimestampsOf rowsW).length ∧
    (sortedTimestampsOf rowsW).Sorted (· ≤ ·) ∧
    (sortedTimestampsOf rowsW).Nodup ∧
    (∀ t, t ∈ sortedTimestampsOf rowsW ↔ ∃ r ∈ rowsW, r.ts = t) ∧
    (((build_voltage_matrix [1, 2] (organize_measurements_by_meter rowsW).1
          (organize_measurements_by_meter rowsW).2).getD 0 []).getD 1 none = none
      ↔ ∀ r ∈ rowsW, ¬(r.meter = ([1, 2] : List ℕ).get ⟨0, by decide⟩
          ∧ r.ts = (sortedTimestampsOf rowsW).get ⟨1, by decide⟩)) ∧
    (∀ v, ((build_voltage_matrix [1, 2] (organize_measurements_by_meter rowsW).1
          (organize_measurements_by_meter rowsW).2).getD 0 []).getD 1 none = some v →
        ∃ r ∈ rowsW, r.meter = ([1, 2] : List ℕ).get ⟨0, by decide⟩
          ∧ r.ts = (sortedTimestampsOf rowsW).get ⟨1, by decide⟩ ∧ r.v = v) :=
  aligner_spec rowsW [1, 2] 0 1 (by decide) (by decide)

/-! ## Claim C10 — endpoint partition and pairing -/

end DDSE
